import Mathlib

/-!
Verification of the order-book synchronization engine of `binance_watcher`
(`src/order_book.rs`, `src/console_arguments.rs`, `src/main.rs`) against its
natural-language specification.

Modeling conventions:

* `f64` values are modeled by `F64`: a finite value is an exact rational
  (`F64.num`), and NaN is `F64.nan`.  Every numeric literal appearing in the
  program's inputs considered here is exactly representable, so no
  binary rounding of `f64` values is modeled; the `-0.0`/`+0.0` and
  NaN-payload distinctions of `f64::total_cmp` are not represented (no claim
  depends on them), and infinite values are outside the modeled range.
* `u64`/`u32` sequence ids and depths are modeled by `ℕ`: the program only
  compares and copies them (no arithmetic), so no wraparound can occur.
* Rust functions that can panic (`.unwrap()` on parses) are modeled as
  `Option`-returning functions, `none` meaning the whole call panics.
* `RefCell`/`Cell` interior mutability is single-threaded state mutation in
  the source; it is modeled by explicit state passing.
-/

namespace BinanceWatcher

/-- Model of an `f64` value: an exact rational, or NaN.  (Infinities and the
sign/payload structure of NaN are outside the range needed by the program's
inputs and are not modeled.) -/
inductive F64 where
  | num (q : ℚ)
  | nan
deriving DecidableEq, Repr

/-- Model of `f64::total_cmp` on the represented values: finite values compare
numerically, and NaN (modeling a positive NaN, which is what `"NaN".parse()`
yields) is greater than every finite value. -/
def F64.cmp : F64 → F64 → Ordering
  | .num a, .num b => if a < b then .lt else if b < a then .gt else .eq
  | .num _, .nan => .lt
  | .nan, .num _ => .gt
  | .nan, .nan => .eq

/-- `f64::EPSILON` is exactly `2⁻⁵²`. -/
def f64_EPSILON : ℚ := 1 / 2 ^ 52

/-- Source `OrderBook::floats_equal`: `(a - b).abs() < f64::EPSILON`.
If either operand is NaN the subtraction is NaN and the `<` comparison is
false in Rust, hence the `false` in the NaN cases. -/
def floats_equal (a b : F64) : Bool :=
  match a, b with
  | .num x, .num y => decide (|x - y| < f64_EPSILON)
  | _, _ => false

/-- Source `Level` struct (field order as in the source). -/
structure Level where
  quantity : F64
  price : F64
deriving DecidableEq, Repr

/-- Source `LevelApi` struct from `messages.rs`: price and quantity as the
decimal strings Binance sends. -/
structure LevelApi where
  price : String
  quantity : String
deriving DecidableEq, Repr

/-- Result of `slice::binary_search_by`: `found i` is Rust's `Ok(i)` (an index
whose element compares `Equal`), `insertAt i` is Rust's `Err(i)` (the
insertion point preserving sort order). -/
inductive SearchResult where
  | found (i : ℕ)
  | insertAt (i : ℕ)
deriving DecidableEq, Repr

/-- The comparator closure passed to `binary_search_by` in
`OrderBook::look_for_level`: probing `level`, it returns
`level.price.total_cmp(&price)` when ascending and
`price.total_cmp(&level.price)` when descending. -/
def cmp_at (ascending : Bool) (level : Level) (price : F64) : Ordering :=
  if ascending then F64.cmp level.price price else F64.cmp price level.price

/-- Helper for `look_for_level`: scan from the left, accumulating the index. -/
def look_for_level_go (price : F64) (ascending : Bool) : List Level → ℕ → SearchResult
  | [], i => .insertAt i
  | l :: ls, i =>
    match cmp_at ascending l price with
    | .lt => look_for_level_go price ascending ls (i + 1)
    | .eq => .found i
    | .gt => .insertAt i

/-- Source `OrderBook::look_for_level`: `levels.binary_search_by(...)`.
Modeled by a linear scan satisfying the `binary_search_by` specification: on
the sorted duplicate-free lists the book maintains, the stdlib binary search
returns exactly this result (`Ok` at the unique matching index, else `Err` at
the unique order-preserving insertion point). -/
def look_for_level (price : F64) (levels : List Level) (ascending : Bool) : SearchResult :=
  look_for_level_go price ascending levels 0

/-- Source `OrderBook::do_apply_to_level`, after its first line has converted
the wire level to a `Level` (the conversion itself, which can panic, is
`level_api_to_level` below; `do_apply_to_level_api` composes the two).
Note the source tests `floats_equal(level_update.price, 0.0)` — the tombstone
test reads the *price* field. -/
def do_apply_to_level (levels : List Level) (level_update : Level) (ascending : Bool) :
    List Level :=
  match look_for_level level_update.price levels ascending with
  | .found index =>
    if floats_equal level_update.price (F64.num 0) then
      levels.eraseIdx index
    else
      levels.set index { price := level_update.price, quantity := level_update.quantity }
  | .insertAt index =>
    if floats_equal level_update.price (F64.num 0) then
      levels
    else
      levels.insertIdx index { price := level_update.price, quantity := level_update.quantity }

/-- Digit string to natural number, most significant digit first. -/
def digitsToNat (cs : List Char) : ℕ :=
  cs.foldl (fun n c => 10 * n + (c.toNat - 48)) 0

/-- Mantissa part of Rust's `f64` grammar: `digits`, `digits '.' [digits]` or
`'.' digits`.  The value is kept as an exact rational. -/
def parse_mantissa (cs : List Char) : Option ℚ :=
  let ip := cs.takeWhile Char.isDigit
  let rest := cs.dropWhile Char.isDigit
  match rest with
  | [] => if ip.isEmpty then none else some (digitsToNat ip : ℚ)
  | '.' :: fp =>
    if fp.all Char.isDigit && !(ip.isEmpty && fp.isEmpty) then
      some ((digitsToNat ip : ℚ) + (digitsToNat fp : ℚ) / 10 ^ fp.length)
    else none
  | _ => none

/-- Exponent part of Rust's `f64` grammar: optional sign then digits. -/
def parse_exponent (cs : List Char) : Option ℤ :=
  let signAndDigits : Bool × List Char :=
    match cs with
    | '+' :: rest => (false, rest)
    | '-' :: rest => (true, rest)
    | _ => (false, cs)
  if signAndDigits.2.isEmpty || !signAndDigits.2.all Char.isDigit then none
  else if signAndDigits.1 then some (-(digitsToNat signAndDigits.2 : ℤ))
  else some (digitsToNat signAndDigits.2 : ℤ)

/-- Decimal-number part of Rust's `f64` grammar: mantissa with optional
`e`/`E` exponent. -/
def parse_decimal (neg : Bool) (cs : List Char) : Option F64 :=
  let mant := cs.takeWhile (fun c => !(c == 'e' || c == 'E'))
  let rest := cs.dropWhile (fun c => !(c == 'e' || c == 'E'))
  match rest with
  | [] =>
    (parse_mantissa mant).map (fun q => F64.num (if neg then -q else q))
  | _ :: ex => do
    let q ← parse_mantissa mant
    let e ← parse_exponent ex
    some (F64.num ((if neg then -q else q) * (10 : ℚ) ^ e))

/-- Modelled from the Rust standard library (not part of this repository's
sources): `str::parse::<f64>` / `impl FromStr for f64`.  Accepts an optional
sign, then case-insensitively `inf`/`infinity`/`nan` or a decimal number with
optional exponent; anything else fails.  Finite values are represented
exactly as rationals (the final round-to-nearest-`f64` step is not modeled;
no claim settled here depends on it).  `inf`/`infinity` parse to infinite
values in Rust, which are outside the modeled `F64` range — no input
considered by any claim uses them — so they map to `none` here. -/
def parse_f64 (s : String) : Option F64 :=
  match s.data with
  | [] => none
  | c :: cs0 =>
    let signAndRest : Bool × List Char :=
      if c = '+' then (false, cs0)
      else if c = '-' then (true, cs0)
      else (false, c :: cs0)
    let lower := signAndRest.2.map Char.toLower
    if lower = ['i', 'n', 'f'] ∨ lower = ['i', 'n', 'f', 'i', 'n', 'i', 't', 'y'] then
      none
    else if lower = ['n', 'a', 'n'] then
      some F64.nan
    else
      parse_decimal signAndRest.1 signAndRest.2

/-- Source `level_api_to_level`: both fields are parsed with `.unwrap()`, so a
parse failure panics the whole containing call (`none` here).  The source
evaluates the `quantity` field initializer first. -/
def level_api_to_level (api_level : LevelApi) : Option Level := do
  let q ← parse_f64 api_level.quantity
  let p ← parse_f64 api_level.price
  some { quantity := q, price := p }

/-- Source `do_apply_to_level` including its first (parsing, panicking) line. -/
def do_apply_to_level_api (levels : List Level) (api_level : LevelApi) (ascending : Bool) :
    Option (List Level) :=
  (level_api_to_level api_level).map (fun lu => do_apply_to_level levels lu ascending)

/-- Source `OrderBook` struct.  `Cell`/`RefCell` wrappers drop away under
explicit state passing; ids and the depth are `ℕ` (see the header note). -/
structure OrderBook where
  last_update_id : ℕ
  levels : ℕ
  symbol : String
  bid : List Level
  ask : List Level
  is_just_initialised : Bool
deriving DecidableEq, Repr

/-- Source `OrderBook::new` (via `Default`): empty sides, id 0, flag false. -/
def OrderBook.new (levels : ℕ) (symbol : String) : OrderBook :=
  { last_update_id := 0, levels := levels, symbol := symbol,
    bid := [], ask := [], is_just_initialised := false }

/-- Source `FullBook` from `messages.rs`, with its levels already parsed
(the string-level shape only matters for the parsing claims, which use
`LevelApi` directly). -/
structure FullBook where
  last_update_id : ℕ
  bids : List Level
  asks : List Level
deriving DecidableEq, Repr

/-- Source `BookDepthUpdate` from `messages.rs`, with its levels already
parsed.  The `e`, `E`, `T`, `s` fields (event type/time, transaction time,
symbol) are never read by the engine and are omitted. -/
structure BookDepthUpdate where
  U : ℕ
  u : ℕ
  pu : ℕ
  b : List Level
  a : List Level
deriving DecidableEq, Repr

/-- Source `OrderBook::trim`: truncate both sides to the configured depth. -/
def OrderBook.trim (ob : OrderBook) : OrderBook :=
  { ob with bid := ob.bid.take ob.levels, ask := ob.ask.take ob.levels }

/-- Source `OrderBook::apply_bid` (bids are kept descending: `ascending = false`). -/
def OrderBook.apply_bid (ob : OrderBook) (level : Level) : OrderBook :=
  { ob with bid := do_apply_to_level ob.bid level false }

/-- Source `OrderBook::apply_ask` (asks are kept ascending: `ascending = true`). -/
def OrderBook.apply_ask (ob : OrderBook) (level : Level) : OrderBook :=
  { ob with ask := do_apply_to_level ob.ask level true }

/-- Source `OrderBook::get_best_bid`: element 0 of the bid side or an error. -/
def OrderBook.get_best_bid (ob : OrderBook) : Except String Level :=
  match ob.bid[0]? with
  | none => .error "empty bid"
  | some level => .ok level

/-- Source `OrderBook::get_best_ask`: element 0 of the ask side or an error. -/
def OrderBook.get_best_ask (ob : OrderBook) : Except String Level :=
  match ob.ask[0]? with
  | none => .error "empty ask"
  | some level => .ok level

/-- Source `OrderBook::apply_full_book_from_http_api`: set the cursor and the
just-initialised flag, replace both sides with the snapshot lists in the
given order, then trim. -/
def OrderBook.apply_full_book_from_http_api (ob : OrderBook) (book : FullBook) : OrderBook :=
  OrderBook.trim { ob with
    last_update_id := book.last_update_id,
    is_just_initialised := true,
    bid := book.bids,
    ask := book.asks }

/-- Source `OrderBook::is_update_applied`: `last_update_id > book_update.u`
(strict). -/
def OrderBook.is_update_applied (ob : OrderBook) (book_update : BookDepthUpdate) : Bool :=
  decide (ob.last_update_id > book_update.u)

/-- Source `OrderBook::is_eligible_for_update`:
`U <= last_update_id && last_update_id <= u`. -/
def OrderBook.is_eligible_for_update (ob : OrderBook) (book_update : BookDepthUpdate) : Bool :=
  decide (book_update.U ≤ ob.last_update_id) && decide (ob.last_update_id ≤ book_update.u)

/-- Source `OrderBook::apply_depth_book_update_from_websocket`, on a
parsed-level event.  Returns the source's `bool` (true: stale or applied;
false: gap) paired with the resulting book state.  Note the source never
clears `is_just_initialised`. -/
def OrderBook.apply_depth_book_update_from_websocket (ob : OrderBook)
    (book : BookDepthUpdate) : Bool × OrderBook :=
  if ob.is_update_applied book then (true, ob)
  else if !ob.is_eligible_for_update book then (false, ob)
  else if !ob.is_just_initialised && decide (ob.last_update_id ≠ book.pu) then (false, ob)
  else
    let ob1 := book.b.foldl OrderBook.apply_bid ob
    let ob2 := book.a.foldl OrderBook.apply_ask ob1
    (true, OrderBook.trim { ob2 with last_update_id := book.u })

/-- The specification's three-way diff outcome. -/
inductive DiffOutcome where
  | Applied
  | Stale
  | Gap
deriving DecidableEq, Repr

/-- Refinement map from the spec's `DiffOutcome` onto the code's branch
structure: names which branch of `apply_depth_book_update_from_websocket` is
taken (the source collapses the outcome to `bool`: `Stale` and `Applied`
return true, both `Gap` branches return false). -/
def OrderBook.classify_diff (ob : OrderBook) (book : BookDepthUpdate) : DiffOutcome :=
  if ob.is_update_applied book then .Stale
  else if !ob.is_eligible_for_update book then .Gap
  else if !ob.is_just_initialised && decide (ob.last_update_id ≠ book.pu) then .Gap
  else .Applied

/-- String-level `BookDepthUpdate` (ids plus unparsed levels), for the claims
about parse failures. -/
structure BookDepthUpdateApi where
  U : ℕ
  u : ℕ
  pu : ℕ
  b : List LevelApi
  a : List LevelApi
deriving DecidableEq, Repr

/-- `apply_bid` including the parsing (panicking) conversion. -/
def OrderBook.apply_bid_api (ob : OrderBook) (api_level : LevelApi) : Option OrderBook := do
  let level ← level_api_to_level api_level
  some (ob.apply_bid level)

/-- `apply_ask` including the parsing (panicking) conversion. -/
def OrderBook.apply_ask_api (ob : OrderBook) (api_level : LevelApi) : Option OrderBook := do
  let level ← level_api_to_level api_level
  some (ob.apply_ask level)

/-- Source `apply_depth_book_update_from_websocket` on the wire-level event:
each level is parsed inside the update loops with `.unwrap()`, so one
unparseable token panics (aborts) the whole call — modeled as `none`. -/
def OrderBook.apply_depth_book_update_from_websocket_api (ob : OrderBook)
    (book : BookDepthUpdateApi) : Option (Bool × OrderBook) :=
  if decide (ob.last_update_id > book.u) then some (true, ob)
  else if !(decide (book.U ≤ ob.last_update_id) && decide (ob.last_update_id ≤ book.u)) then
    some (false, ob)
  else if !ob.is_just_initialised && decide (ob.last_update_id ≠ book.pu) then
    some (false, ob)
  else do
    let ob1 ← book.b.foldlM OrderBook.apply_bid_api ob
    let ob2 ← book.a.foldlM OrderBook.apply_ask_api ob1
    some (true, OrderBook.trim { ob2 with last_update_id := book.u })

/-- Strict ordering relation maintained on one side's levels: for asks
(`ascending = true`) this says `x.price < y.price`, for bids it says
`y.price < x.price` — phrased through the very comparator the search uses. -/
def ordRel (ascending : Bool) (x y : Level) : Prop :=
  cmp_at ascending x y.price = .lt

/-- State of one side after a sequence of upserts starting from empty: the
fold of `do_apply_to_level` over the updates. -/
def upsert_all (ascending : Bool) (ups : List Level) : List Level :=
  ups.foldl (fun levels l => do_apply_to_level levels l ascending) []

/-! Model of `console_arguments.rs` and the chunking in `main.rs`.

`Config::instruments_per_connection` computes
`(len as f32 / connections as f32).ceil() as usize`, i.e. through `f32`
arithmetic.  `f32` is modeled exactly: a rounding map on exact rationals. -/

/-- Round to the nearest integer, ties to even (the IEEE default). -/
def roundNE (x : ℚ) : ℤ :=
  if x - ⌊x⌋ < 1 / 2 then ⌊x⌋
  else if 1 / 2 < x - ⌊x⌋ then ⌊x⌋ + 1
  else if Even ⌊x⌋ then ⌊x⌋ else ⌊x⌋ + 1

/-- Round a positive rational to the `f32` grid (24 significant bits): scale
into `[2²³, 2²⁴)`, round to the nearest integer (ties to even), scale back. -/
def rnd32pos (x : ℚ) : ℚ :=
  (roundNE (x * 2 ^ (23 - Int.log 2 x)) : ℚ) * 2 ^ (Int.log 2 x - 23)

/-- Modelled from the IEEE-754 semantics the Rust source relies on (not part
of this repository's sources): rounding an exact rational to the nearest
`binary32` value, ties to even.  Valid on the normal range; subnormal
underflow and overflow to infinity are outside every input considered. -/
def rnd32 (x : ℚ) : ℚ :=
  if x = 0 then 0
  else if 0 < x then rnd32pos x
  else -(rnd32pos (-x))

/-- Rust `n as f32` on a `usize`/`u32`: round to nearest, ties to even. -/
def f32_of_nat (n : ℕ) : ℚ := rnd32 (n : ℚ)

/-- IEEE `f32` division: the correctly rounded exact quotient. -/
def f32_div (a b : ℚ) : ℚ := rnd32 (a / b)

/-- Source `Config::instruments_per_connection`:
`(instruments.len() as f32 / connections as f32).ceil() as usize`.
`f32::ceil` is exact (the ceiling of an `f32` is representable at every
magnitude where it is not already an integer), and the `as usize` cast
truncates — on the nonnegative integral ceiling it is `Int.toNat`. -/
def instruments_per_connection (instruments_len connections : ℕ) : ℕ :=
  (⌈f32_div (f32_of_nat instruments_len) (f32_of_nat connections)⌉).toNat

/-- Rust `slice::chunks(n)` as used in `main`: contiguous chunks of `n`
elements, the last possibly shorter.  (`chunks(0)` panics in Rust; the
program always calls it with `n ≥ 1`, and every theorem below assumes so.) -/
def chunks (n : ℕ) (l : List α) : List (List α) :=
  match l with
  | [] => []
  | x :: xs => (x :: xs).take n :: chunks n (xs.drop (n - 1))
termination_by l.length
decreasing_by
  simp only [List.length_drop, List.length_cons]
  omega

/-! ### Helper lemmas: the `total_cmp` order -/

theorem F64.cmp_eq_iff (a b : F64) : F64.cmp a b = .eq ↔ a = b := by
  cases a <;> cases b <;> simp [F64.cmp]
  case num.num x y =>
    constructor
    · rintro ⟨h1, h2⟩
      exact le_antisymm h2 h1
    · rintro rfl
      simp

theorem F64.cmp_lt_iff_gt (a b : F64) : F64.cmp a b = .lt ↔ F64.cmp b a = .gt := by
  cases a <;> cases b <;> simp [F64.cmp]
  case num.num x y => exact fun h => le_of_lt h

theorem F64.cmp_lt_trans {a b c : F64} (hab : F64.cmp a b = .lt) (hbc : F64.cmp b c = .lt) :
    F64.cmp a c = .lt := by
  cases a <;> cases b <;> cases c <;> simp_all [F64.cmp]
  case num.num.num x y z => exact lt_trans hab hbc

/-! ### Helper lemmas: the side ordering relation and the comparator -/

theorem ordRel_def (ascending : Bool) (x y : Level) :
    ordRel ascending x y ↔ cmp_at ascending x y.price = .lt := Iff.rfl

theorem ordRel_trans {ascending : Bool} {x y z : Level}
    (hxy : ordRel ascending x y) (hyz : ordRel ascending y z) : ordRel ascending x z := by
  cases ascending <;>
    simp only [ordRel, cmp_at, if_true, if_false, Bool.false_eq_true] at * <;>
    [exact F64.cmp_lt_trans hyz hxy; exact F64.cmp_lt_trans hxy hyz]

instance ordRel_isTrans (ascending : Bool) : IsTrans Level (ordRel ascending) :=
  ⟨fun _ _ _ => ordRel_trans⟩

theorem ordRel_price_ne {ascending : Bool} {x y : Level} (h : ordRel ascending x y) :
    x.price ≠ y.price := by
  intro he
  cases ascending <;>
    simp only [ordRel, cmp_at, if_true, if_false, Bool.false_eq_true, he] at h <;>
    rw [F64.cmp_eq_iff y.price y.price |>.mpr rfl] at h <;> cases h

theorem ordRel_congr_left {ascending : Bool} {x x' y : Level} (h : x.price = x'.price) :
    ordRel ascending x y ↔ ordRel ascending x' y := by
  cases ascending <;> simp only [ordRel, cmp_at, if_true, if_false, Bool.false_eq_true, h]

theorem ordRel_congr_right {ascending : Bool} {x y y' : Level} (h : y.price = y'.price) :
    ordRel ascending x y ↔ ordRel ascending x y' := by
  cases ascending <;> simp only [ordRel, cmp_at, if_true, if_false, Bool.false_eq_true, h]

theorem cmp_at_eq_price {ascending : Bool} {l : Level} {p : F64}
    (h : cmp_at ascending l p = .eq) : l.price = p := by
  cases ascending <;> simp only [cmp_at, if_true, if_false, Bool.false_eq_true] at h
  · exact ((F64.cmp_eq_iff p l.price).mp h).symm
  · exact (F64.cmp_eq_iff l.price p).mp h

theorem cmp_at_gt_rel {ascending : Bool} {y v : Level} {p : F64}
    (h : cmp_at ascending y p = .gt) (hv : v.price = p) : ordRel ascending v y := by
  cases ascending <;>
    simp only [ordRel, cmp_at, if_true, if_false, Bool.false_eq_true, hv] at h ⊢
  · exact (F64.cmp_lt_iff_gt y.price p).mpr h
  · exact (F64.cmp_lt_iff_gt p y.price).mpr h

theorem cmp_at_lt_rel {ascending : Bool} {z v : Level} {p : F64}
    (h : cmp_at ascending z p = .lt) (hv : v.price = p) : ordRel ascending z v := by
  simp only [ordRel, hv]
  exact h

/-! ### Helper lemmas: structure of `look_for_level` -/

theorem look_for_level_go_found {price : F64} {ascending : Bool} :
    ∀ {ls : List Level} {i0 j : ℕ}, look_for_level_go price ascending ls i0 = .found j →
      ∃ l1 x l2, ls = l1 ++ x :: l2 ∧ j = i0 + l1.length ∧
        (∀ z ∈ l1, cmp_at ascending z price = .lt) ∧ cmp_at ascending x price = .eq := by
  intro ls
  induction ls with
  | nil => intro i0 j h; simp [look_for_level_go] at h
  | cons l ls ih =>
    intro i0 j h
    simp only [look_for_level_go] at h
    rcases hc : cmp_at ascending l price with _ | _ | _ <;> rw [hc] at h
    · obtain ⟨l1, x, l2, hsplit, hj, hlt, heq⟩ := ih h
      refine ⟨l :: l1, x, l2, by simp [hsplit], by simp [hj]; omega, ?_, heq⟩
      intro z hz
      rcases List.mem_cons.mp hz with rfl | hz'
      · exact hc
      · exact hlt z hz'
    · cases h
      exact ⟨[], l, ls, rfl, by simp, by simp, hc⟩
    · cases h

theorem look_for_level_go_insertAt {price : F64} {ascending : Bool} :
    ∀ {ls : List Level} {i0 j : ℕ}, look_for_level_go price ascending ls i0 = .insertAt j →
      ∃ l1 l2, ls = l1 ++ l2 ∧ j = i0 + l1.length ∧
        (∀ z ∈ l1, cmp_at ascending z price = .lt) ∧
        (∀ y ∈ l2.head?, cmp_at ascending y price = .gt) := by
  intro ls
  induction ls with
  | nil =>
    intro i0 j h
    simp only [look_for_level_go] at h
    cases h
    exact ⟨[], [], rfl, by simp, by simp, by simp⟩
  | cons l ls ih =>
    intro i0 j h
    simp only [look_for_level_go] at h
    rcases hc : cmp_at ascending l price with _ | _ | _ <;> rw [hc] at h
    · obtain ⟨l1, l2, hsplit, hj, hlt, hgt⟩ := ih h
      refine ⟨l :: l1, l2, by simp [hsplit], by simp [hj]; omega, ?_, hgt⟩
      intro z hz
      rcases List.mem_cons.mp hz with rfl | hz'
      · exact hc
      · exact hlt z hz'
    · cases h
    · cases h
      exact ⟨[], l :: ls, rfl, by simp, by simp, by simpa using hc⟩

/-! ### Helper lemmas: list edits at an append boundary -/

theorem eraseIdx_append_len {α : Type} : ∀ (l1 : List α) (x : α) (l2 : List α),
    (l1 ++ x :: l2).eraseIdx l1.length = l1 ++ l2 := by
  intro l1
  induction l1 with
  | nil => intro x l2; rfl
  | cons a l1 ih => intro x l2; simp [List.eraseIdx, ih]

theorem set_append_len {α : Type} : ∀ (l1 : List α) (x v : α) (l2 : List α),
    (l1 ++ x :: l2).set l1.length v = l1 ++ v :: l2 := by
  intro l1
  induction l1 with
  | nil => intro x v l2; rfl
  | cons a l1 ih => intro x v l2; simp [List.set, ih]

theorem insertIdx_append_len {α : Type} : ∀ (l1 : List α) (v : α) (l2 : List α),
    (l1 ++ l2).insertIdx l1.length v = l1 ++ v :: l2 := by
  intro l1
  induction l1 with
  | nil => intro v l2; rfl
  | cons a l1 ih => intro v l2; simpa [List.insertIdx_succ_cons] using ih v l2

/-! ### Chain preservation through `do_apply_to_level` -/

theorem chain'_of_erase {ascending : Bool} {l1 l2 : List Level} {x : Level}
    (h : List.Chain' (ordRel ascending) (l1 ++ x :: l2)) :
    List.Chain' (ordRel ascending) (l1 ++ l2) := by
  rw [List.chain'_append] at h ⊢
  obtain ⟨h1, h2, hlink⟩ := h
  rw [List.chain'_cons'] at h2
  refine ⟨h1, h2.2, ?_⟩
  intro a ha b hb
  exact ordRel_trans (hlink a ha x (by simp)) (h2.1 b hb)

theorem chain'_of_set {ascending : Bool} {l1 l2 : List Level} {x v : Level}
    (hpx : v.price = x.price)
    (h : List.Chain' (ordRel ascending) (l1 ++ x :: l2)) :
    List.Chain' (ordRel ascending) (l1 ++ v :: l2) := by
  rw [List.chain'_append] at h ⊢
  obtain ⟨h1, h2, hlink⟩ := h
  rw [List.chain'_cons'] at h2 ⊢
  refine ⟨h1, ⟨?_, h2.2⟩, ?_⟩
  · intro y hy
    exact (ordRel_congr_left hpx).mpr (h2.1 y hy)
  · intro a ha b hb
    simp only [List.head?_cons, Option.mem_def, Option.some.injEq] at hb
    subst hb
    exact (ordRel_congr_right hpx).mpr (hlink a ha x (by simp))

theorem chain'_of_insert {ascending : Bool} {l1 l2 : List Level} {v : Level} {p : F64}
    (hvp : v.price = p)
    (hlt : ∀ z ∈ l1, cmp_at ascending z p = .lt)
    (hgt : ∀ y ∈ l2.head?, cmp_at ascending y p = .gt)
    (h : List.Chain' (ordRel ascending) (l1 ++ l2)) :
    List.Chain' (ordRel ascending) (l1 ++ v :: l2) := by
  rw [List.chain'_append] at h ⊢
  obtain ⟨h1, h2, _⟩ := h
  refine ⟨h1, ?_, ?_⟩
  · rw [List.chain'_cons']
    exact ⟨fun y hy => cmp_at_gt_rel (hgt y hy) hvp, h2⟩
  · intro a ha b hb
    simp only [List.head?_cons, Option.mem_def, Option.some.injEq] at hb
    subst hb
    refine cmp_at_lt_rel (hlt a ?_) hvp
    exact List.mem_of_mem_getLast? ha

theorem do_apply_to_level_chain' {ascending : Bool} {levels : List Level} (lu : Level)
    (h : List.Chain' (ordRel ascending) levels) :
    List.Chain' (ordRel ascending) (do_apply_to_level levels lu ascending) := by
  rcases hs : look_for_level lu.price levels ascending with i | i
  · have hs0 : look_for_level_go lu.price ascending levels 0 = SearchResult.found i := hs
    obtain ⟨l1, x, l2, hsplit, hj, _, heq⟩ := look_for_level_go_found hs0
    subst hsplit
    simp only [Nat.zero_add] at hj
    subst hj
    simp only [do_apply_to_level, hs]
    split
    · rw [eraseIdx_append_len]
      exact chain'_of_erase h
    · rw [set_append_len]
      exact chain'_of_set (cmp_at_eq_price heq).symm h
  · have hs0 : look_for_level_go lu.price ascending levels 0 = SearchResult.insertAt i := hs
    obtain ⟨l1, l2, hsplit, hj, hlt, hgt⟩ := look_for_level_go_insertAt hs0
    subst hsplit
    simp only [Nat.zero_add] at hj
    subst hj
    simp only [do_apply_to_level, hs]
    split
    · exact h
    · rw [insertIdx_append_len]
      exact chain'_of_insert rfl hlt hgt h

theorem foldl_do_apply_chain' {ascending : Bool} (ups : List Level) :
    ∀ {s : List Level}, List.Chain' (ordRel ascending) s →
      List.Chain' (ordRel ascending)
        (ups.foldl (fun levels l => do_apply_to_level levels l ascending) s) := by
  induction ups with
  | nil => intro s h; exact h
  | cons u us ih => intro s h; exact ih (do_apply_to_level_chain' u h)

theorem chain'_pairwise_price_ne {ascending : Bool} {l : List Level}
    (h : List.Chain' (ordRel ascending) l) : (l.map Level.price).Pairwise (· ≠ ·) := by
  have hp : l.Pairwise (ordRel ascending) := List.chain'_iff_pairwise.mp h
  exact hp.map Level.price (fun {a b} hr => ordRel_price_ne hr)

theorem apply_bid_levels_eq (ob : OrderBook) (l : Level) : (ob.apply_bid l).levels = ob.levels :=
  rfl

theorem apply_ask_levels_eq (ob : OrderBook) (l : Level) : (ob.apply_ask l).levels = ob.levels :=
  rfl

theorem foldl_apply_bid_levels (ls : List Level) :
    ∀ ob : OrderBook, (ls.foldl OrderBook.apply_bid ob).levels = ob.levels := by
  induction ls with
  | nil => intro ob; rfl
  | cons l ls ih => intro ob; exact ih (ob.apply_bid l)

theorem foldl_apply_ask_levels (ls : List Level) :
    ∀ ob : OrderBook, (ls.foldl OrderBook.apply_ask ob).levels = ob.levels := by
  induction ls with
  | nil => intro ob; rfl
  | cons l ls ih => intro ob; exact ih (ob.apply_ask l)

/-! ### Claim theorems -/

/-- C1 (code evaluation at the failing input): `do_apply_to_level` keys its
tombstone test on the *price* field, so a zero-quantity update at a present
price 5 keeps the level (setting its quantity to 0) instead of removing it,
and a zero-quantity update at an absent price 5 inserts a quantity-0 level
instead of being a no-op. -/
theorem c1_zero_quantity_not_a_tombstone :
    do_apply_to_level [{ quantity := F64.num 1, price := F64.num 5 }]
        { quantity := F64.num 0, price := F64.num 5 } false
      = [{ quantity := F64.num 0, price := F64.num 5 }] ∧
    do_apply_to_level [] { quantity := F64.num 0, price := F64.num 5 } false
      = [{ quantity := F64.num 0, price := F64.num 5 }] := by
  norm_num [do_apply_to_level, look_for_level, look_for_level_go, cmp_at, F64.cmp,
    floats_equal, f64_EPSILON]

/-- C2 (code evaluation at the failing input): after a snapshot at id 100500
and a first in-range diff with `pu = 0` (accepted thanks to the
just-initialised relaxation), the `is_just_initialised` flag is still set —
the source never clears it — so a second in-range diff whose `pu = 999`
differs from the cursor 100500 is classified `Applied` (the call returns
true) instead of the `Gap` the claim requires. -/
theorem c2_bootstrap_flag_never_cleared :
    ((((OrderBook.new 3 "btcusdt").apply_full_book_from_http_api
        { last_update_id := 100500, bids := [], asks := [] }).apply_depth_book_update_from_websocket
        { U := 100000, u := 100500, pu := 0, b := [], a := [] }).1 = true) ∧
    ((((OrderBook.new 3 "btcusdt").apply_full_book_from_http_api
        { last_update_id := 100500, bids := [], asks := [] }).apply_depth_book_update_from_websocket
        { U := 100000, u := 100500, pu := 0, b := [], a := [] }).2.is_just_initialised = true) ∧
    ((((OrderBook.new 3 "btcusdt").apply_full_book_from_http_api
        { last_update_id := 100500, bids := [], asks := [] }).apply_depth_book_update_from_websocket
        { U := 100000, u := 100500, pu := 0, b := [], a := [] }).2.last_update_id = 100500) ∧
    ((((OrderBook.new 3 "btcusdt").apply_full_book_from_http_api
        { last_update_id := 100500, bids := [], asks := [] }).apply_depth_book_update_from_websocket
        { U := 100000, u := 100500, pu := 0, b := [], a := [] }).2.classify_diff
        { U := 100400, u := 100600, pu := 999, b := [], a := [] } = DiffOutcome.Applied) ∧
    (999 : ℕ) ≠ 100500 := by
  decide

/-- C3 (counterexample): at the boundary `final_update_id = last_applied_id`
the event is *not* stale — with the cursor at 100 and an event with
`U = u = pu = 100` carrying one bid level, the code classifies it `Applied`
and mutates the bid side, contradicting the claim that any event with
`final_update_id ≤ X` returns `Stale` with no mutation. -/
theorem c3_boundary_not_stale :
    (OrderBook.classify_diff
        { last_update_id := 100, levels := 3, symbol := "", bid := [], ask := [],
          is_just_initialised := false }
        { U := 100, u := 100, pu := 100,
          b := [{ quantity := F64.num 1, price := F64.num 5 }], a := [] }
      ≠ DiffOutcome.Stale) ∧
    ((OrderBook.apply_depth_book_update_from_websocket
        { last_update_id := 100, levels := 3, symbol := "", bid := [], ask := [],
          is_just_initialised := false }
        { U := 100, u := 100, pu := 100,
          b := [{ quantity := F64.num 1, price := F64.num 5 }], a := [] }).2.bid
      ≠ []) := by
  constructor
  · decide
  · norm_num [OrderBook.apply_depth_book_update_from_websocket, OrderBook.is_update_applied,
      OrderBook.is_eligible_for_update, OrderBook.apply_bid, OrderBook.trim,
      do_apply_to_level, look_for_level, look_for_level_go, cmp_at, F64.cmp,
      floats_equal, f64_EPSILON]

/-- C3 (amended): staleness is strict — every diff event whose
`final_update_id` is strictly below the cursor returns the stale outcome
(source value `true`) and leaves every field of the book unchanged; the
boundary `final_update_id = last_applied_id` is not treated as stale. -/
theorem c3_strictly_stale_rejection (ob : OrderBook) (ev : BookDepthUpdate)
    (h : ev.u < ob.last_update_id) :
    ob.apply_depth_book_update_from_websocket ev = (true, ob) ∧
    ob.classify_diff ev = DiffOutcome.Stale := by
  have hs : ob.is_update_applied ev = true := by
    simp only [OrderBook.is_update_applied, decide_eq_true_eq]
    omega
  constructor <;>
    simp [OrderBook.apply_depth_book_update_from_websocket, OrderBook.classify_diff, hs]

/-- C3 (witness for the amended theorem). -/
theorem c3_strictly_stale_rejection_witness :
    OrderBook.apply_depth_book_update_from_websocket
        { last_update_id := 7, levels := 3, symbol := "", bid := [], ask := [],
          is_just_initialised := false }
        { U := 1, u := 2, pu := 1, b := [], a := [] }
      = (true,
          { last_update_id := 7, levels := 3, symbol := "", bid := [], ask := [],
            is_just_initialised := false }) ∧
    OrderBook.classify_diff
        { last_update_id := 7, levels := 3, symbol := "", bid := [], ask := [],
          is_just_initialised := false }
        { U := 1, u := 2, pu := 1, b := [], a := [] }
      = DiffOutcome.Stale :=
  c3_strictly_stale_rejection _ _ (by decide)

/-- C4: a non-stale diff (`final_update_id > last_applied_id`) whose covered
range does not contain the cursor returns the gap outcome (source value
`false`) and performs no mutation at all. -/
theorem c4_out_of_range_is_gap (ob : OrderBook) (ev : BookDepthUpdate)
    (h1 : ob.last_update_id < ev.u)
    (h2 : ¬(ev.U ≤ ob.last_update_id ∧ ob.last_update_id ≤ ev.u)) :
    ob.apply_depth_book_update_from_websocket ev = (false, ob) ∧
    ob.classify_diff ev = DiffOutcome.Gap := by
  have hs : ob.is_update_applied ev = false := by
    simp only [OrderBook.is_update_applied, decide_eq_false_iff_not, not_lt]
    omega
  have he : ob.is_eligible_for_update ev = false := by
    simp only [OrderBook.is_eligible_for_update, Bool.and_eq_false_iff,
      decide_eq_false_iff_not, not_le]
    rcases not_and_or.mp h2 with h | h
    · exact Or.inl (by omega)
    · exact Or.inr (by omega)
  constructor <;>
    simp [OrderBook.apply_depth_book_update_from_websocket, OrderBook.classify_diff, hs, he]

/-- C4 (witness). -/
theorem c4_out_of_range_is_gap_witness :
    OrderBook.apply_depth_book_update_from_websocket (OrderBook.new 3 "btcusdt")
        { U := 5, u := 10, pu := 4, b := [], a := [] }
      = (false, OrderBook.new 3 "btcusdt") ∧
    OrderBook.classify_diff (OrderBook.new 3 "btcusdt")
        { U := 5, u := 10, pu := 4, b := [], a := [] }
      = DiffOutcome.Gap :=
  c4_out_of_range_is_gap _ _ (by decide) (by decide)

/-- C6: starting from an empty side, any sequence of upserts leaves the bid
side (`ascending = false`) strictly descending in price and the ask side
(`ascending = true`) strictly ascending in price, with no two levels sharing
a price — prices being compared by the code's total order (`F64.cmp`, the
model of `f64::total_cmp`). -/
theorem c6_upsert_sequences_keep_sides_sorted (ups : List Level) :
    List.Chain' (fun x y : Level => F64.cmp y.price x.price = Ordering.lt)
      (upsert_all false ups) ∧
    List.Chain' (fun x y : Level => F64.cmp x.price y.price = Ordering.lt)
      (upsert_all true ups) ∧
    ((upsert_all false ups).map Level.price).Pairwise (· ≠ ·) ∧
    ((upsert_all true ups).map Level.price).Pairwise (· ≠ ·) := by
  have hbid : List.Chain' (ordRel false) (upsert_all false ups) :=
    foldl_do_apply_chain' ups List.chain'_nil
  have hask : List.Chain' (ordRel true) (upsert_all true ups) :=
    foldl_do_apply_chain' ups List.chain'_nil
  exact ⟨hbid, hask, chain'_pairwise_price_ne hbid, chain'_pairwise_price_ne hask⟩

/-- C7: after every snapshot application, and after every diff application
classified `Applied`, both sides hold at most `levels` (the configured
depth) entries. -/
theorem c7_depth_bound (ob : OrderBook) (fb : FullBook) (ev : BookDepthUpdate) :
    ((ob.apply_full_book_from_http_api fb).bid.length ≤ ob.levels ∧
     (ob.apply_full_book_from_http_api fb).ask.length ≤ ob.levels) ∧
    (ob.classify_diff ev = DiffOutcome.Applied →
      ((ob.apply_depth_book_update_from_websocket ev).2.bid.length ≤ ob.levels ∧
       (ob.apply_depth_book_update_from_websocket ev).2.ask.length ≤ ob.levels)) := by
  constructor
  · exact ⟨List.length_take_le _ _, List.length_take_le _ _⟩
  · intro hA
    unfold OrderBook.classify_diff at hA
    unfold OrderBook.apply_depth_book_update_from_websocket
    split_ifs at hA ⊢ with h1 h2 h3
    all_goals try cases hA
    simp only [OrderBook.trim, List.length_take, foldl_apply_ask_levels,
      foldl_apply_bid_levels]
    exact ⟨min_le_left _ _, min_le_left _ _⟩

/-- C7 (witness). -/
theorem c7_depth_bound_witness :
    (((OrderBook.new 2 "btcusdt").apply_full_book_from_http_api
        { last_update_id := 3, bids := [], asks := [] }).bid.length ≤ 2 ∧
     ((OrderBook.new 2 "btcusdt").apply_full_book_from_http_api
        { last_update_id := 3, bids := [], asks := [] }).ask.length ≤ 2) ∧
    (((OrderBook.new 2 "btcusdt").apply_depth_book_update_from_websocket
        { U := 0, u := 1, pu := 0, b := [{ quantity := F64.num 1, price := F64.num 5 }],
          a := [] }).2.bid.length ≤ 2 ∧
     ((OrderBook.new 2 "btcusdt").apply_depth_book_update_from_websocket
        { U := 0, u := 1, pu := 0, b := [{ quantity := F64.num 1, price := F64.num 5 }],
          a := [] }).2.ask.length ≤ 2) :=
  ⟨(c7_depth_bound (OrderBook.new 2 "btcusdt")
      { last_update_id := 3, bids := [], asks := [] }
      { U := 0, u := 1, pu := 0, b := [{ quantity := F64.num 1, price := F64.num 5 }],
        a := [] }).1,
   (c7_depth_bound (OrderBook.new 2 "btcusdt")
      { last_update_id := 3, bids := [], asks := [] }
      { U := 0, u := 1, pu := 0, b := [{ quantity := F64.num 1, price := F64.num 5 }],
        a := [] }).2 (by decide)⟩

/-- C8 (counterexample): `apply_full_book_from_http_api` sets the cursor
unconditionally, so applying a snapshot with id 5 to a book whose cursor is
100 strictly lowers the cursor, contradicting the claim that no
`apply_snapshot` call ever does so. -/
theorem c8_snapshot_can_lower_cursor :
    (OrderBook.apply_full_book_from_http_api
        { last_update_id := 100, levels := 3, symbol := "", bid := [], ask := [],
          is_just_initialised := false }
        { last_update_id := 5, bids := [], asks := [] }).last_update_id
      < (100 : ℕ) := by
  decide

/-- C8 (amended): across `apply_diff` calls that are not classified `Gap`
the cursor never decreases; `apply_snapshot` however sets the cursor to the
snapshot's id unconditionally, which may decrease it. -/
theorem c8_cursor_monotone_for_diffs (ob : OrderBook) (ev : BookDepthUpdate) (fb : FullBook) :
    (ob.classify_diff ev ≠ DiffOutcome.Gap →
      ob.last_update_id ≤ (ob.apply_depth_book_update_from_websocket ev).2.last_update_id) ∧
    (ob.apply_full_book_from_http_api fb).last_update_id = fb.last_update_id := by
  constructor
  · intro hG
    unfold OrderBook.classify_diff at hG
    unfold OrderBook.apply_depth_book_update_from_websocket
    split_ifs at hG ⊢ with h1 h2 h3
    · exact le_refl _
    · exact absurd rfl hG
    · exact absurd rfl hG
    · have he : ob.is_eligible_for_update ev = true := by
        rcases h : ob.is_eligible_for_update ev with _ | _
        · exact absurd (by simp [h]) h2
        · rfl
      simp only [OrderBook.is_eligible_for_update, Bool.and_eq_true, decide_eq_true_eq] at he
      simpa using he.2
  · rfl

/-- C8 (witness for the amended theorem). -/
theorem c8_cursor_monotone_for_diffs_witness :
    (OrderBook.new 3 "btcusdt").last_update_id ≤
      ((OrderBook.new 3 "btcusdt").apply_depth_book_update_from_websocket
        { U := 0, u := 4, pu := 0, b := [], a := [] }).2.last_update_id ∧
    ((OrderBook.new 3 "btcusdt").apply_full_book_from_http_api
        { last_update_id := 9, bids := [], asks := [] }).last_update_id = 9 :=
  ⟨(c8_cursor_monotone_for_diffs (OrderBook.new 3 "btcusdt")
      { U := 0, u := 4, pu := 0, b := [], a := [] }
      { last_update_id := 9, bids := [], asks := [] }).1 (by decide),
   (c8_cursor_monotone_for_diffs (OrderBook.new 3 "btcusdt")
      { U := 0, u := 4, pu := 0, b := [], a := [] }
      { last_update_id := 9, bids := [], asks := [] }).2⟩

/-- C10: a snapshot application copies the provided lists verbatim in order
and truncates them to the depth — no sorting, deduplication or price
validation — so with depth at least 1 the best bid/ask afterwards is exactly
the first provided element, whatever its price. -/
theorem c10_snapshot_copies_verbatim (ob : OrderBook) (fb : FullBook) :
    (ob.apply_full_book_from_http_api fb).bid = fb.bids.take ob.levels ∧
    (ob.apply_full_book_from_http_api fb).ask = fb.asks.take ob.levels ∧
    (1 ≤ ob.levels →
      (ob.apply_full_book_from_http_api fb).get_best_bid =
        (match fb.bids with
          | [] => Except.error "empty bid"
          | l :: _ => Except.ok l) ∧
      (ob.apply_full_book_from_http_api fb).get_best_ask =
        (match fb.asks with
          | [] => Except.error "empty ask"
          | l :: _ => Except.ok l)) := by
  refine ⟨rfl, rfl, ?_⟩
  intro h
  obtain ⟨m, hm⟩ : ∃ m, ob.levels = m + 1 := ⟨ob.levels - 1, by omega⟩
  constructor
  · rcases hb : fb.bids with _ | ⟨l, ls⟩ <;>
      simp [OrderBook.get_best_bid, OrderBook.apply_full_book_from_http_api, OrderBook.trim,
        hb, hm]
  · rcases hb : fb.asks with _ | ⟨l, ls⟩ <;>
      simp [OrderBook.get_best_ask, OrderBook.apply_full_book_from_http_api, OrderBook.trim,
        hb, hm]

/-- C10 (witness). -/
theorem c10_snapshot_copies_verbatim_witness :
    ((OrderBook.new 2 "btcusdt").apply_full_book_from_http_api
        { last_update_id := 3,
          bids := [{ quantity := F64.num 1, price := F64.num 4 }],
          asks := [] }).bid
      = [{ quantity := F64.num 1, price := F64.num 4 }] ∧
    ((OrderBook.new 2 "btcusdt").apply_full_book_from_http_api
        { last_update_id := 3,
          bids := [{ quantity := F64.num 1, price := F64.num 4 }],
          asks := [] }).get_best_bid
      = Except.ok { quantity := F64.num 1, price := F64.num 4 } := by
  refine ⟨?_, ?_⟩
  · have := (c10_snapshot_copies_verbatim (OrderBook.new 2 "btcusdt")
      { last_update_id := 3,
        bids := [{ quantity := F64.num 1, price := F64.num 4 }], asks := [] }).1
    simpa using this
  · have := ((c10_snapshot_copies_verbatim (OrderBook.new 2 "btcusdt")
      { last_update_id := 3,
        bids := [{ quantity := F64.num 1, price := F64.num 4 }], asks := [] }).2.2
      (by decide)).1
    simpa using this

theorem foldlM_apply_bid_api_none :
    ∀ (l : List LevelApi), (∃ x ∈ l, level_api_to_level x = none) →
      ∀ ob : OrderBook, l.foldlM OrderBook.apply_bid_api ob = none := by
  intro l
  induction l with
  | nil => intro hbad; simp at hbad
  | cons y ys ih =>
    intro hbad ob
    rcases hbad with ⟨x, hx, hpar⟩
    rcases List.mem_cons.mp hx with rfl | hmem
    · simp [List.foldlM_cons, OrderBook.apply_bid_api, hpar]
    · rcases hy : OrderBook.apply_bid_api ob y with _ | s
      · simp [List.foldlM_cons, hy]
      · simp only [List.foldlM_cons, hy, Option.bind_eq_bind, Option.some_bind]
        exact ih ⟨x, hmem, hpar⟩ s

/-- C5 (counterexample): there is no `MalformedLevel` condition.  With the
cursor at 100 (in range, continuity satisfied), a diff whose bid list starts
with the unparseable price token `"oops"` makes the whole
`apply_depth_book_update_from_websocket` call panic (modeled `none`): no
level is applied, the cursor does not advance, and the condition does
propagate past the containing operation — and a `"NaN"` token parses
successfully into a NaN level instead of being rejected. -/
theorem c5_no_malformed_level_condition :
    OrderBook.apply_depth_book_update_from_websocket_api
        { last_update_id := 100, levels := 3, symbol := "", bid := [], ask := [],
          is_just_initialised := false }
        { U := 100, u := 101, pu := 100,
          b := [{ price := "oops", quantity := "1" }, { price := "5", quantity := "1" }],
          a := [] }
      = none ∧
    level_api_to_level { price := "5", quantity := "NaN" }
      = some { quantity := F64.nan, price := F64.num 5 } := by
  constructor
  · decide
  · decide

/-- C5 (amended): the source parses every level token with `.unwrap()`, so
whenever an in-range, continuity-satisfying diff carries a bid level whose
price or quantity fails to parse, the whole apply call panics (`none`): the
remaining levels are not applied and the cursor does not advance.  A literal
NaN token, by contrast, parses successfully (`f64::from_str` accepts it) and
the resulting level is inserted into the book rather than rejected. -/
theorem c5_unparseable_token_aborts_apply :
    (∀ (ob : OrderBook) (ev : BookDepthUpdateApi),
      ¬ ob.last_update_id > ev.u →
      (ev.U ≤ ob.last_update_id ∧ ob.last_update_id ≤ ev.u) →
      (ob.is_just_initialised = true ∨ ob.last_update_id = ev.pu) →
      (∃ l ∈ ev.b, level_api_to_level l = none) →
      ob.apply_depth_book_update_from_websocket_api ev = none) ∧
    parse_f64 "NaN" = some F64.nan ∧
    do_apply_to_level [] { quantity := F64.nan, price := F64.num 5 } true
      = [{ quantity := F64.nan, price := F64.num 5 }] := by
  refine ⟨?_, by decide, ?_⟩
  · intro ob ev h1 h2 h3 hbad
    unfold OrderBook.apply_depth_book_update_from_websocket_api
    have hd1 : decide (ob.last_update_id > ev.u) = false := by
      simp only [decide_eq_false_iff_not]
      exact h1
    have hd2 : (decide (ev.U ≤ ob.last_update_id) && decide (ob.last_update_id ≤ ev.u))
        = true := by
      simp [h2.1, h2.2]
    have hd3 : (!ob.is_just_initialised && decide (ob.last_update_id ≠ ev.pu)) = false := by
      rcases h3 with h | h <;> simp [h]
    rw [hd1, hd2, hd3]
    simp only [Bool.false_eq_true, if_false, Bool.not_true, Bool.false_and, Bool.and_self,
      if_true]
    rw [foldlM_apply_bid_api_none ev.b hbad ob]
    rfl
  · norm_num [do_apply_to_level, look_for_level, look_for_level_go, cmp_at, F64.cmp,
      floats_equal, f64_EPSILON]

/-- C5 (witness for the amended theorem). -/
theorem c5_unparseable_token_aborts_apply_witness :
    OrderBook.apply_depth_book_update_from_websocket_api
        { last_update_id := 100, levels := 3, symbol := "", bid := [], ask := [],
          is_just_initialised := false }
        { U := 100, u := 101, pu := 100, b := [{ price := "oops", quantity := "1" }],
          a := [] }
      = none :=
  c5_unparseable_token_aborts_apply.1
    { last_update_id := 100, levels := 3, symbol := "", bid := [], ask := [],
      is_just_initialised := false }
    { U := 100, u := 101, pu := 100, b := [{ price := "oops", quantity := "1" }], a := [] }
    (by decide) (by decide) (Or.inr (by decide))
    ⟨{ price := "oops", quantity := "1" }, by decide, by decide⟩

/-! ### Helper lemmas: the `f32` rounding model -/

theorem roundNE_intCast (n : ℤ) : roundNE (n : ℚ) = n := by
  unfold roundNE
  rw [Int.floor_intCast]
  rw [if_pos (by norm_num)]

theorem abs_roundNE_sub_le (x : ℚ) : |(roundNE x : ℚ) - x| ≤ 1 / 2 := by
  have h0 : (⌊x⌋ : ℚ) ≤ x := Int.floor_le x
  have h1 : x < ⌊x⌋ + 1 := Int.lt_floor_add_one x
  unfold roundNE
  split_ifs with ha hb hc <;> rw [abs_le] <;> constructor <;> push_cast <;> linarith

theorem rnd32pos_exact {x : ℚ} (m : ℤ) (hm : x * 2 ^ ((23 : ℤ) - Int.log 2 x) = (m : ℚ)) :
    rnd32pos x = x := by
  unfold rnd32pos
  rw [hm, roundNE_intCast, ← hm, mul_assoc, ← zpow_add₀ (by norm_num : (2:ℚ) ≠ 0)]
  have hexp : (23 : ℤ) - Int.log 2 x + (Int.log 2 x - 23) = 0 := by ring
  rw [hexp, zpow_zero, mul_one]

theorem abs_rnd32pos_sub_le {x : ℚ} (_hx : 0 < x) :
    |rnd32pos x - x| ≤ 2 ^ (Int.log 2 x - 24) := by
  unfold rnd32pos
  set e := Int.log 2 x with he
  set y := x * 2 ^ ((23:ℤ) - e) with hy
  have h3 : (0:ℚ) < 2 ^ (e - (23:ℤ)) := zpow_pos (by norm_num) _
  have hxy : x = y * 2 ^ (e - (23:ℤ)) := by
    rw [hy, mul_assoc, ← zpow_add₀ (by norm_num : (2:ℚ) ≠ 0)]
    have hexp : (23 : ℤ) - e + (e - 23) = 0 := by ring
    rw [hexp, zpow_zero, mul_one]
  calc |(roundNE y : ℚ) * 2 ^ (e - 23) - x|
      = |(roundNE y : ℚ) - y| * 2 ^ (e - 23) := by
        rw [hxy, ← sub_mul, abs_mul, abs_of_pos h3]
    _ ≤ (1/2) * 2 ^ (e - 23) :=
        mul_le_mul_of_nonneg_right (abs_roundNE_sub_le _) (le_of_lt h3)
    _ = 2 ^ (e - 24) := by
        have h4 : (2:ℚ) ^ (e - 23) = 2 ^ (e - 24) * 2 := by
          rw [← zpow_add_one₀ (by norm_num : (2:ℚ) ≠ 0)]
          congr 1
          ring
        rw [h4]
        ring

theorem rnd32_natCast_exact {n : ℕ} (h1 : 1 ≤ n) (h2 : n ≤ 2 ^ 24) : rnd32 (n : ℚ) = n := by
  have hx : (0:ℚ) < n := by exact_mod_cast h1
  unfold rnd32
  rw [if_neg (by exact ne_of_gt hx), if_pos hx]
  have helog : Int.log 2 ((n : ℕ) : ℚ) = (Nat.log 2 n : ℤ) := Int.log_natCast 2 n
  by_cases hsmall : n < 2 ^ 24
  · have hlog23 : Nat.log 2 n < 24 := (Nat.lt_pow_iff_log_lt (by norm_num) (by omega)).mp hsmall
    apply rnd32pos_exact ((n : ℤ) * 2 ^ (23 - Nat.log 2 n))
    rw [helog]
    have hk : ((23 : ℤ) - (Nat.log 2 n : ℤ)) = ((23 - Nat.log 2 n : ℕ) : ℤ) := by omega
    rw [hk, zpow_natCast]
    push_cast
    ring
  · have hn : n = 2 ^ 24 := by omega
    subst hn
    apply rnd32pos_exact (2 ^ 23)
    rw [helog]
    have hlog : Nat.log 2 (2 ^ 24) = 24 := Nat.log_pow (by norm_num) 24
    rw [hlog]
    push_cast
    norm_num [zpow_neg, zpow_one]

theorem rnd32pos_natCast_exact {n : ℕ} (h1 : 1 ≤ n) (h2 : n ≤ 2 ^ 24) :
    rnd32pos (n : ℚ) = n := by
  have hx : (0:ℚ) < n := by exact_mod_cast h1
  have h := rnd32_natCast_exact h1 h2
  unfold rnd32 at h
  rwa [if_neg (by exact ne_of_gt hx), if_pos hx] at h

/-- The exact `f32` ceiling computation agrees with the integer ceiling on
the domain where the conversions are exact. -/
theorem instruments_per_connection_exact {L C : ℕ} (hL1 : 1 ≤ L) (hL : L ≤ 2 ^ 24)
    (hC1 : 1 ≤ C) (hC : C ≤ 199) :
    instruments_per_connection L C = (L + C - 1) / C := by
  have hC0 : (0:ℚ) < C := by exact_mod_cast hC1
  have hL0 : (0:ℚ) < L := by exact_mod_cast hL1
  unfold instruments_per_connection f32_div f32_of_nat
  rw [rnd32_natCast_exact hL1 hL, rnd32_natCast_exact hC1 (by omega)]
  set q : ℚ := (L:ℚ) / (C:ℚ) with hqdef
  have hq0 : 0 < q := div_pos hL0 hC0
  have hrw : rnd32 q = rnd32pos q := by
    unfold rnd32
    rw [if_neg (by exact ne_of_gt hq0), if_pos hq0]
  rw [hrw]
  have hCq : (C:ℚ) * q = L := by
    rw [hqdef]
    field_simp
  by_cases hdvd : C ∣ L
  · obtain ⟨k, hk⟩ := hdvd
    have hk1 : 1 ≤ k := by
      rcases Nat.eq_zero_or_pos k with h | h
      · subst h
        rw [Nat.mul_zero] at hk
        omega
      · exact h
    have hk24 : k ≤ 2 ^ 24 := by
      have hkk : k ≤ C * k := by
        calc k = 1 * k := (one_mul k).symm
          _ ≤ C * k := Nat.mul_le_mul_right k hC1
      omega
    have hqk : q = ((k:ℕ) : ℚ) := by
      rw [hqdef, hk]
      push_cast
      rw [mul_comm, mul_div_assoc, div_self (ne_of_gt hC0), mul_one]
    rw [hqk, rnd32pos_natCast_exact hk1 hk24, Int.ceil_natCast, Int.toNat_natCast, hk]
    have h1 : C * k + C - 1 = C * k + (C - 1) := by omega
    rw [h1, Nat.mul_add_div (by omega), Nat.div_eq_of_lt (by omega), Nat.add_zero]
  · set k := L / C with hkdef
    set r := L % C with hrdef
    have hmod : C * k + r = L := by
      rw [hkdef, hrdef]
      exact Nat.div_add_mod L C
    have hr1 : 1 ≤ r := by
      rcases Nat.eq_zero_or_pos r with h | h
      · exact absurd (Nat.dvd_of_mod_eq_zero h) hdvd
      · exact h
    have hrC : r < C := Nat.mod_lt _ (by omega)
    have hLq : (L:ℚ) = (C:ℚ) * (k:ℚ) + (r:ℚ) := by exact_mod_cast hmod.symm
    have hqkr : q = (k:ℚ) + (r:ℚ)/(C:ℚ) := by
      rw [hqdef, hLq, add_div, mul_comm, mul_div_assoc, div_self (ne_of_gt hC0), mul_one]
    have hq_lb : (k:ℚ) + 1/(C:ℚ) ≤ q := by
      rw [hqkr]
      have : (1:ℚ) ≤ (r:ℚ) := by exact_mod_cast hr1
      have h2 : (1:ℚ)/(C:ℚ) ≤ (r:ℚ)/(C:ℚ) := by gcongr
      linarith
    have hq_ub : q ≤ (k:ℚ) + 1 - 1/(C:ℚ) := by
      rw [hqkr]
      have hrc1 : (r:ℚ) + 1 ≤ (C:ℚ) := by exact_mod_cast (by omega : r + 1 ≤ C)
      have h2 : (r:ℚ)/(C:ℚ) ≤ ((C:ℚ) - 1)/(C:ℚ) := by gcongr; linarith
      have h3 : ((C:ℚ) - 1)/(C:ℚ) = 1 - 1/(C:ℚ) := by field_simp
      linarith
    set e := Int.log 2 q with hedef
    have h2e_le : (2:ℚ) ^ e ≤ q := by
      have h := Int.zpow_log_le_self (b := 2) (by norm_num) hq0
      rw [hedef]
      exact_mod_cast h
    have hCe : (C:ℚ) * 2 ^ e ≤ (L:ℚ) := by
      calc (C:ℚ) * 2 ^ e ≤ (C:ℚ) * q := by gcongr
        _ = L := hCq
    have hL24 : (L:ℚ) ≤ 2 ^ (24:ℤ) := by
      have h : (L:ℚ) ≤ ((2^24 : ℕ) : ℚ) := by exact_mod_cast hL
      calc (L:ℚ) ≤ ((2^24 : ℕ) : ℚ) := h
        _ = 2 ^ (24:ℤ) := by push_cast; norm_num
    have h24pos : (0:ℚ) < 2 ^ (24:ℤ) := zpow_pos (by norm_num) _
    have hulp : (C:ℚ) * 2 ^ (e - 24) ≤ 1 := by
      have key : (C:ℚ) * 2 ^ (e - 24) * 2 ^ (24:ℤ) ≤ 1 * 2 ^ (24:ℤ) := by
        have hco : (C:ℚ) * 2 ^ (e - 24) * 2 ^ (24:ℤ) = C * 2 ^ e := by
          rw [mul_assoc, ← zpow_add₀ (by norm_num : (2:ℚ) ≠ 0)]
          have hexp : e - 24 + 24 = e := by ring
          rw [hexp]
        rw [hco, one_mul]
        exact le_trans hCe hL24
      exact le_of_mul_le_mul_right key h24pos
    have hulp' : (2:ℚ) ^ (e - 24) ≤ 1 / (C:ℚ) := by
      rw [le_div_iff₀ hC0, mul_comm]
      exact hulp
    have herr : |rnd32pos q - q| ≤ 2 ^ (e - 24) := by
      rw [hedef]
      exact abs_rnd32pos_sub_le hq0
    have herr' := abs_le.mp herr
    have hub : rnd32pos q ≤ (k:ℚ) + 1 := by linarith [herr'.2]
    have hlb : (k:ℚ) ≤ rnd32pos q := by linarith [herr'.1]
    have hne : rnd32pos q ≠ (k:ℚ) := by
      intro heq
      have hqk1 : q - (k:ℚ) ≤ 2 ^ (e - 24) := by
        have h := herr'.1
        rw [heq] at h
        linarith
      have hsq1 : q - (k:ℚ) = 1 / (C:ℚ) := by linarith
      have hsq2 : (1:ℚ) / (C:ℚ) = 2 ^ (e - 24) := by linarith
      have hCpow : (C:ℚ) = 2 ^ ((24:ℤ) - e) := by
        have h2' : ((C:ℚ))⁻¹ = 2 ^ (e - 24) := by
          rw [inv_eq_one_div]
          exact hsq2
        have h3' : (C:ℚ) = (2 ^ (e - 24))⁻¹ := by
          rw [← h2', inv_inv]
        rw [h3', ← zpow_neg]
        congr 1
        ring
      have hC2e : (C:ℚ) * 2 ^ e = 2 ^ (24:ℤ) := by
        rw [hCpow, ← zpow_add₀ (by norm_num : (2:ℚ) ≠ 0)]
        congr 1
        ring
      have hq_le_2e : q ≤ 2 ^ e := by
        have h : (C:ℚ) * q ≤ (C:ℚ) * 2 ^ e := by
          rw [hCq, hC2e]
          exact hL24
        exact le_of_mul_le_mul_left h hC0
      have hq2e : q = 2 ^ e := le_antisymm hq_le_2e h2e_le
      have hL24' : (L:ℚ) = 2 ^ (24:ℤ) := by
        rw [← hCq, hq2e]
        exact hC2e
      by_cases he24 : 0 ≤ (24:ℤ) - e
      · set j : ℕ := ((24:ℤ) - e).toNat with hjdef
        have hj : ((24:ℤ) - e) = (j:ℤ) := by omega
        have hCj : C = 2 ^ j := by
          have h : (C:ℚ) = ((2 ^ j : ℕ) : ℚ) := by
            rw [hCpow, hj, zpow_natCast]
            push_cast
            ring
          exact_mod_cast h
        have hLn : L = 2 ^ 24 := by
          have h : (L:ℚ) = ((2 ^ 24 : ℕ) : ℚ) := by
            rw [hL24']
            push_cast
            norm_num
          exact_mod_cast h
        have hj24 : j ≤ 24 := by
          by_contra hcon
          push_neg at hcon
          have h25 : (2:ℕ) ^ 25 ≤ 2 ^ j := Nat.pow_le_pow_right (by norm_num) (by omega)
          have h25' : (2:ℕ) ^ 25 = 33554432 := by norm_num
          omega
        exact hdvd ⟨2 ^ (24 - j), by rw [hCj, hLn, ← pow_add]; congr 1; omega⟩
      · push_neg at he24
        have hClt : (C:ℚ) < 1 := by
          rw [hCpow]
          exact zpow_lt_one_of_neg₀ (by norm_num) (by omega)
        have hge : (1:ℚ) ≤ C := by exact_mod_cast hC1
        linarith
    have hceil : ⌈rnd32pos q⌉ = (k:ℤ) + 1 := by
      rw [Int.ceil_eq_iff]
      constructor
      · push_cast
        have h : (k:ℚ) < rnd32pos q := lt_of_le_of_ne hlb (Ne.symm hne)
        linarith
      · push_cast
        exact hub
    rw [hceil]
    have hrhs : (L + C - 1) / C = k + 1 := by
      have hCk : C * (k + 1) = C * k + C := by ring
      have h1 : L + C - 1 = C * (k + 1) + (r - 1) := by omega
      rw [h1, Nat.mul_add_div (by omega), Nat.div_eq_of_lt (by omega), Nat.add_zero]
    rw [hrhs]
    exact Int.toNat_natCast_add_one

/-! ### Helper lemmas: `chunks` -/

theorem chunks_nil {α : Type} (n : ℕ) : chunks n ([] : List α) = [] := by
  rw [chunks]

theorem chunks_cons {α : Type} (n : ℕ) (x : α) (xs : List α) :
    chunks n (x :: xs) = (x :: xs).take n :: chunks n (xs.drop (n - 1)) := by
  rw [chunks]

theorem chunks_flatten_aux {α : Type} (m : ℕ) :
    ∀ (fuel : ℕ) (l : List α), l.length ≤ fuel → (chunks (m + 1) l).flatten = l := by
  intro fuel
  induction fuel with
  | zero =>
    intro l hl
    have hl0 : l = [] := List.eq_nil_of_length_eq_zero (by omega)
    subst hl0
    simp [chunks_nil]
  | succ f ih =>
    intro l hl
    rcases l with _ | ⟨x, xs⟩
    · simp [chunks_nil]
    · rw [chunks_cons]
      simp only [Nat.add_sub_cancel]
      rw [List.flatten_cons,
        ih (xs.drop m) (by simp only [List.length_drop]; simp at hl; omega)]
      rw [List.take_succ_cons, List.cons_append, List.take_append_drop]

theorem chunks_mem_aux {α : Type} (m : ℕ) :
    ∀ (fuel : ℕ) (l c : List α), l.length ≤ fuel → c ∈ chunks (m + 1) l →
      c ≠ [] ∧ c.length ≤ m + 1 := by
  intro fuel
  induction fuel with
  | zero =>
    intro l c hl hc
    have hl0 : l = [] := List.eq_nil_of_length_eq_zero (by omega)
    subst hl0
    rw [chunks_nil] at hc
    cases hc
  | succ f ih =>
    intro l c hl hc
    rcases l with _ | ⟨x, xs⟩
    · rw [chunks_nil] at hc
      cases hc
    · rw [chunks_cons] at hc
      simp only [Nat.add_sub_cancel] at hc
      rcases List.mem_cons.mp hc with rfl | hc'
      · refine ⟨by simp [List.take_succ_cons], List.length_take_le _ _⟩
      · exact ih (xs.drop m) c (by simp only [List.length_drop]; simp at hl; omega) hc'

theorem chunks_dropLast_aux {α : Type} (m : ℕ) :
    ∀ (fuel : ℕ) (l c : List α), l.length ≤ fuel →
      c ∈ (chunks (m + 1) l).dropLast → c.length = m + 1 := by
  intro fuel
  induction fuel with
  | zero =>
    intro l c hl hc
    have hl0 : l = [] := List.eq_nil_of_length_eq_zero (by omega)
    subst hl0
    rw [chunks_nil] at hc
    cases hc
  | succ f ih =>
    intro l c hl hc
    rcases l with _ | ⟨x, xs⟩
    · rw [chunks_nil] at hc
      cases hc
    · rw [chunks_cons] at hc
      simp only [Nat.add_sub_cancel] at hc
      rcases hrest : chunks (m + 1) (xs.drop m) with _ | ⟨c2, cs⟩
      · rw [hrest] at hc
        simp at hc
      · rw [hrest, List.dropLast_cons₂] at hc
        rcases List.mem_cons.mp hc with rfl | hc'
        · have hne : xs.drop m ≠ [] := by
            intro h0
            rw [h0, chunks_nil] at hrest
            cases hrest
          have hlen : m < xs.length := by
            have h1 : 0 < (xs.drop m).length := List.length_pos.mpr hne
            simp only [List.length_drop] at h1
            omega
          rw [List.length_take, List.length_cons]
          omega
        · exact ih (xs.drop m) c
            (by simp only [List.length_drop]; simp at hl; omega)
            (by rw [hrest]; exact hc')

/-- C9 (counterexample): the chunk size is computed through `f32` arithmetic,
and `f32` cannot represent 2²⁴ + 1 — with 16777217 instruments and one
connection the computed size is 16777216, not the exact ceiling 16777217
(so the list would be split into two chunks instead of one). -/
theorem c9_f32_ceiling_not_exact :
    instruments_per_connection 16777217 1 = 16777216 ∧
    (16777217 + 1 - 1) / 1 ≠ 16777216 := by
  constructor
  · unfold instruments_per_connection f32_div f32_of_nat
    have h1 : rnd32 ((1:ℕ) : ℚ) = ((1:ℕ):ℚ) := rnd32_natCast_exact (le_refl 1) (by norm_num)
    have hbig : rnd32 ((16777217:ℕ) : ℚ) = ((16777216:ℕ):ℚ) := by
      have hlognat : Nat.log 2 16777217 = 24 :=
        Nat.log_eq_of_pow_le_of_lt_pow (by norm_num) (by norm_num)
      have hlog : Int.log 2 ((16777217:ℕ):ℚ) = 24 := by
        rw [Int.log_natCast, hlognat]
        norm_num
      have hpos : (0:ℚ) < ((16777217:ℕ):ℚ) := by
        push_cast
        norm_num
      unfold rnd32
      rw [if_neg (by exact ne_of_gt hpos), if_pos hpos]
      unfold rnd32pos
      rw [hlog]
      have hy : ((16777217:ℕ):ℚ) * 2 ^ ((23:ℤ) - 24) = 16777217 / 2 := by
        push_cast
        norm_num [zpow_neg, zpow_one]
      rw [hy]
      have hfl : ⌊(16777217:ℚ)/2⌋ = 8388608 := by
        rw [Int.floor_eq_iff]
        constructor <;> norm_num
      have hr : roundNE ((16777217:ℚ)/2) = 8388608 := by
        unfold roundNE
        rw [hfl]
        have hsub : (16777217:ℚ)/2 - ((8388608:ℤ):ℚ) = 1/2 := by
          push_cast
          norm_num
        rw [hsub]
        rw [if_neg (by norm_num), if_neg (by norm_num)]
        norm_num [Int.even_iff]
      rw [hr]
      push_cast
      norm_num
    rw [hbig, h1, Nat.cast_one, div_one,
      rnd32_natCast_exact (by norm_num) (by norm_num : 16777216 ≤ 2 ^ 24),
      Int.ceil_natCast, Int.toNat_natCast]
  · norm_num

/-- C9 (amended): for every instrument count `L ≤ 2²⁴` (where the `usize`
to `f32` conversion is exact) and every connection count `C` in the range
the program accepts (1 to 199), the computed per-connection chunk size is
the exact integer ceiling `⌈L/C⌉`; and for every chunk size `n ≥ 1`,
`chunks` splits the list into contiguous chunks whose concatenation is the
original list, with no empty chunk, every chunk of length at most `n`, and
every chunk except possibly the last of length exactly `n`.  (Beyond 2²⁴ the
`f32` computation can deviate from the exact ceiling.) -/
theorem c9_chunk_size_and_partition :
    (∀ L C : ℕ, 1 ≤ L → L ≤ 2 ^ 24 → 1 ≤ C → C ≤ 199 →
      instruments_per_connection L C = (L + C - 1) / C) ∧
    (∀ (α : Type) (n : ℕ) (l : List α), 1 ≤ n →
      (chunks n l).flatten = l ∧
      (∀ c ∈ chunks n l, c ≠ [] ∧ c.length ≤ n) ∧
      (∀ c ∈ (chunks n l).dropLast, c.length = n)) := by
  refine ⟨fun L C h1 h2 h3 h4 => instruments_per_connection_exact h1 h2 h3 h4, ?_⟩
  intro α n l hn
  obtain ⟨m, rfl⟩ : ∃ m, n = m + 1 := ⟨n - 1, by omega⟩
  exact ⟨chunks_flatten_aux m l.length l (le_refl _),
    fun c hc => chunks_mem_aux m l.length l c (le_refl _) hc,
    fun c hc => chunks_dropLast_aux m l.length l c (le_refl _) hc⟩

/-- C9 (witness for the amended theorem). -/
theorem c9_chunk_size_and_partition_witness :
    instruments_per_connection 5 2 = (5 + 2 - 1) / 2 ∧
    (chunks 2 [1, 2, 3]).flatten = [1, 2, 3] :=
  ⟨c9_chunk_size_and_partition.1 5 2 (by norm_num) (by norm_num) (by norm_num) (by norm_num),
   (c9_chunk_size_and_partition.2 ℕ 2 [1, 2, 3] (by norm_num)).1⟩

end BinanceWatcher
